import Mathlib

/-!
Verification of the expense-tracker ledger (src/app.py).

The program is a Streamlit UI over a SQLite table `expenses` with columns
(date TEXT, category TEXT, amount REAL, note TEXT) and the implicit SQLite
`rowid`.  The handlers are embedded here as pure functions on a list of
records.  Monetary amounts are modelled exactly (as rationals); the SQLite
rowid assignment (largest existing rowid plus one, first rowid 1) is
modelled by `nextRowid`.
-/

namespace ExpenseTracker

/-- One row of the `expenses` table, together with its SQLite rowid.
`note` is an `Option` because the column is nullable; every UI path stores
a (possibly empty) string. -/
structure Record where
  id : Nat
  date : String
  category : String
  amount : ℚ
  note : Option String
deriving DecidableEq

/-- The `expenses` table in storage (rowid) order. -/
abbrev Store := List Record

/-- The note as pandas string accessors see a missing value replaced by
an empty string (`r.note.getD ""`). -/
def noteStr (r : Record) : String := r.note.getD ""

/-- `SELECT rowid, * FROM expenses` (src/app.py line 165): every stored
record with its id, in storage order. -/
def queryAll (st : Store) : List Record := st

/-- SQLite rowid assignment for an insert: one more than the largest
existing rowid (1 on an empty table). -/
def nextRowid (st : Store) : Nat := (st.map (fun r => r.id)).foldr max 0 + 1

/-- Outcome of the expense-form submit handler: either the row was
inserted or the `amount <= 0` validation warning fired
(the spec's `ValidationError`). -/
inductive SubmitOutcome where
  | ok
  | validationError
deriving DecidableEq

/-- The record built by the form submit handler (src/app.py lines 150-155)
for a given assigned rowid. -/
def newExpense (d c : String) (a : ℚ) (n : String) (id : Nat) : Record :=
  ⟨id, d, c, a, some n⟩

/-- The expense-form submit handler (src/app.py lines 146-157): if
`amount <= 0` it only shows the validation warning; otherwise it appends
exactly one row to the `expenses` table. -/
def formSubmit (st : Store) (d c : String) (a : ℚ) (n : String) :
    Store × SubmitOutcome :=
  if a ≤ 0 then (st, SubmitOutcome.validationError)
  else (st ++ [newExpense d c a n (nextRowid st)], SubmitOutcome.ok)

/-- The sample row appended by the "Add sample expense" button
(src/app.py lines 88-97). -/
def sampleExpense (today : String) (id : Nat) : Record :=
  ⟨id, today, "Food", 199, some "Sample lunch"⟩

/-- The "Add sample expense" handler (src/app.py lines 88-97). -/
def addSample (today : String) (st : Store) : Store :=
  st ++ [sampleExpense today (nextRowid st)]

/-- `DELETE FROM expenses WHERE rowid = :rid` (src/app.py lines 254-257),
together with the number of rows the statement affects. -/
def deleteById (rid : Nat) (st : Store) : Store × Nat :=
  (st.filter (fun r => decide (r.id ≠ rid)),
   (st.filter (fun r => decide (r.id = rid))).length)

/-- `DELETE FROM expenses WHERE rowid IN (sel)` (src/app.py line 264),
issued inside a single `engine.begin()` transaction. -/
def deleteByIds (ids : List Nat) (st : Store) : Store :=
  st.filter (fun r => decide (r.id ∉ ids))

/-- A SQL statement issued by a delete handler. -/
inductive SqlStmt where
  | deleteWhereIn : List Nat → SqlStmt
deriving DecidableEq

/-- The "Delete selected" handler (src/app.py lines 259-267): with a
non-empty selection it issues one `DELETE ... WHERE rowid IN` statement;
with an empty selection it only shows the "No selection." warning and
issues no statement at all. -/
def deleteSelectedHandler (sel : List Nat) (st : Store) : Store × List SqlStmt :=
  if sel = [] then (st, [])
  else (deleteByIds sel st, [SqlStmt.deleteWhereIn sel])

/-- The "Delete all expenses" handler (src/app.py lines 269-272):
`DELETE FROM expenses`. -/
def deleteAllExpenses (_st : Store) : Store := []

/-- The month filter (src/app.py lines 187-188):
`df_filtered["date"].astype(str).str.startswith(selected_month)`.
It is applied only when the selected month is truthy and not "All". -/
def monthFilter (sel : String) (rs : List Record) : List Record :=
  rs.filter (fun r => sel.data.isPrefixOf r.date.data)

/-- The category filter (src/app.py lines 189-190):
`df_filtered["category"] == selected_cat`, applied when the selection is
truthy and not "All". -/
def categoryFilter (sel : String) (rs : List Record) : List Record :=
  rs.filter (fun r => decide (r.category = sel))

/-! ## The search filter

Line 192 of src/app.py keeps a row when
`note.str.contains(q, case=False, na=False)` or
`category.str.contains(q, case=False, na=False)` holds.  pandas
`str.contains` treats `q` as a regular expression (`regex=True` is the
default) compiled with `re.IGNORECASE`, and `na=False` makes a NULL note
count as a non-match.  We embed the fragment of Python regular
expressions the search text exercises here: a pattern is a sequence of
tokens, each either a literal character or the `.` metacharacter
(matching any single character); `re.search` semantics is `reSearch`
below.  Case-insensitive matching is modelled by lower-casing both the
pattern literals and the subject. -/

/-- One token of a compiled pattern: a literal character or `.`. -/
inductive Tok where
  | lit : Char → Tok
  | dot : Tok
deriving DecidableEq

/-- Does a single token match a single character? -/
def tokMatches : Tok → Char → Bool
  | Tok.lit c, d => c == d
  | Tok.dot, _ => true

/-- Does the pattern match a prefix of the subject (anchored match)? -/
def matchPrefix : List Tok → List Char → Bool
  | [], _ => true
  | _ :: _, [] => false
  | t :: ts, c :: cs => tokMatches t c && matchPrefix ts cs

/-- `re.search`: the pattern matches starting at some position of the
subject. -/
def reSearch (ts : List Tok) : List Char → Bool
  | [] => matchPrefix ts []
  | c :: rest => matchPrefix ts (c :: rest) || reSearch ts rest

/-- Lower-case the literal characters of a pattern (the `.` metacharacter
is unaffected by `re.IGNORECASE`). -/
def lowerTok : Tok → Tok
  | Tok.lit c => Tok.lit c.toLower
  | Tok.dot => Tok.dot

/-- `s.str.contains(pat, case=False)` on one cell, for an already
compiled pattern: case-insensitive `re.search`. -/
def strContainsCIRe (pat : List Tok) (s : List Char) : Bool :=
  reSearch (pat.map lowerTok) (s.map Char.toLower)

/-- The row predicate of src/app.py line 192: note matches (a NULL note
counts as no match, `na=False`) or category matches. -/
def searchPred (pat : List Tok) (r : Record) : Bool :=
  (match r.note with
   | none => false
   | some n => strContainsCIRe pat n.data) || strContainsCIRe pat r.category.data

/-- The search filter over an already compiled pattern. -/
def searchFilter (pat : List Tok) (rs : List Record) : List Record :=
  rs.filter (searchPred pat)

/-- Is the character one of the metacharacters of Python regular
expressions? -/
def isRegexMeta (c : Char) : Bool :=
  c = '.' || c = '*' || c = '+' || c = '?' || c = '[' || c = ']' ||
  c = '(' || c = ')' || c = '\x7b' || c = '\x7d' || c = '^' || c = '$' ||
  c = '\\' || c = '|'

/-- Compilation of the search text into the modelled regex fragment:
`.` becomes the any-character token, every non-metacharacter a literal.
A text using any other metacharacter falls outside the fragment and is
not modelled: compilation refuses it rather than mis-reading it as
literal characters. -/
def compilePattern (q : List Char) : Option (List Tok) :=
  if q.all (fun c => !isRegexMeta c || c = '.') then
    some (q.map (fun c => if c = '.' then Tok.dot else Tok.lit c))
  else none

/-- The search filter as the source applies it to the search box text `q`
(src/app.py lines 191-192), defined for the search texts within the
modelled regex fragment (`none` outside it). -/
def searchFilterStr (q : String) (rs : List Record) : Option (List Record) :=
  (compilePattern q.data).map (fun pat => searchFilter pat rs)

/-! ## Spec-side search predicate (from the specification's words)

The specification describes the search as *plain substring* matching:
keep records where the text occurs, case-insensitively, as a substring of
note or category, an absent note being treated as the empty string.  The
following definitions follow the spec's words and are compared with the
source-derived `searchFilterStr` above. -/

/-- Plain substring test: does `q` occur contiguously in the subject? -/
def isSubstr (q : List Char) : List Char → Bool
  | [] => q.isEmpty
  | c :: t => q.isPrefixOf (c :: t) || isSubstr q t

/-- Case-insensitive plain substring test on strings. -/
def isSubstrCI (q s : String) : Bool :=
  isSubstr (q.data.map Char.toLower) (s.data.map Char.toLower)

/-- The spec's search predicate: the text occurs case-insensitively as a
plain substring of the note (absent note read as "") or of the
category. -/
def specSearchPred (q : String) (r : Record) : Bool :=
  isSubstrCI q (noteStr r) || isSubstrCI q r.category

/-! ## Aggregation by category

The Overview metrics (src/app.py lines 204-207) and the pie chart
(line 235) group the rows by `category` and sum `amount`:
`df_filtered.groupby("category")["amount"].sum()`.  The mapping is one
entry per distinct category. -/

/-- Total amount of the rows in a given category. -/
def catTotal (c : String) (rs : List Record) : ℚ :=
  ((rs.filter (fun r => decide (r.category = c))).map (fun r => r.amount)).sum

/-- `groupby("category")["amount"].sum()`: one entry per distinct
category, carrying the summed amount. -/
def aggregateByCategory (rs : List Record) : List (String × ℚ) :=
  ((rs.map (fun r => r.category)).dedup).map (fun c => (c, catTotal c rs))

/-! ## Decimal serialization of amounts

`to_csv` prints the REAL `amount` column in full precision with no
currency symbol.  Amounts entered through the form are cent-precision
decimals (the input uses two fractional digits), so the printed text is
a decimal numeral with one or two fractional digits, a whole number
getting a trailing `.0` the way Python prints floats.  `amtToCsv` below
renders exactly that for rationals whose denominator divides 100; the
re-import direction is `parseAmount`. -/

/-- Decimal digit characters of `n`, least significant first
(empty for 0). -/
def natDigitsRev (n : Nat) : List Char :=
  if h : n = 0 then []
  else Nat.digitChar (n % 10) :: natDigitsRev (n / 10)
decreasing_by exact Nat.div_lt_self (Nat.pos_of_ne_zero h) (by norm_num)

/-- Decimal numeral of `n`, most significant digit first ("0" for 0). -/
def natToChars (n : Nat) : List Char :=
  if n = 0 then ['0'] else (natDigitsRev n).reverse

/-- Value of a decimal digit character. -/
def digitVal (c : Char) : Nat := c.toNat - 48

/-- Value of a decimal numeral, most significant digit first. -/
def natFromChars (l : List Char) : Nat :=
  l.foldl (fun a c => 10 * a + digitVal c) 0

/-- Render a non-negative number of cents the way Python prints the
corresponding float: trailing `.0` for whole amounts, one fractional
digit when the cents are a multiple of ten, two otherwise. -/
def fmtCents (n : Nat) : List Char :=
  if n % 100 = 0 then natToChars (n / 100) ++ ['.', '0']
  else if (n % 100) % 10 = 0 then
    natToChars (n / 100) ++ ['.', Nat.digitChar ((n % 100) / 10)]
  else if n % 100 < 10 then
    natToChars (n / 100) ++ ['.', '0', Nat.digitChar (n % 100)]
  else
    natToChars (n / 100) ++ ['.', Nat.digitChar ((n % 100) / 10),
      Nat.digitChar ((n % 100) % 10)]

/-- The amount field text written by `to_csv`, for cent-precision
amounts (denominator dividing 100). -/
def amtToCsv (a : ℚ) : List Char :=
  if a.num * ((100 / a.den : Nat) : Int) < 0 then
    '-' :: fmtCents (a.num * ((100 / a.den : Nat) : Int)).natAbs
  else fmtCents (a.num * ((100 / a.den : Nat) : Int)).natAbs

/-- Parse an unsigned decimal numeral with an optional fractional part. -/
def parseUnsigned (cs : List Char) : Option ℚ :=
  if cs.takeWhile (fun c => c.isDigit) = [] then none
  else
    match cs.dropWhile (fun c => c.isDigit) with
    | [] => some (natFromChars (cs.takeWhile (fun c => c.isDigit)))
    | '.' :: fr =>
        if !fr.isEmpty && fr.all (fun c => c.isDigit) then
          some ((natFromChars (cs.takeWhile (fun c => c.isDigit)) : ℚ)
              + (natFromChars fr : ℚ) / (10 : ℚ) ^ fr.length)
        else none
    | _ => none

/-- Parse a decimal numeral with optional sign and fractional part
(the shape `to_csv` produces for the amount column). -/
def parseAmount (cs : List Char) : Option ℚ :=
  match cs with
  | [] => none
  | c :: rest =>
      if c = '-' then (parseUnsigned rest).map (fun q => -q)
      else parseUnsigned (c :: rest)

/-! ## CSV serialization

`df.to_csv(index=False)` writes a header line and one line per row,
comma-delimited, terminated by `\n`, quoting a field (and doubling inner
quotes) exactly when it contains a delimiter, a quote or a line break
(`csv.QUOTE_MINIMAL`).  `parseCsvAux` is the standard CSV reader used to
state the re-import direction; it is a plain state machine over the
character stream (quoted fields may contain delimiters and line
breaks). -/

/-- Does `csv.QUOTE_MINIMAL` quote this field? -/
def needsQuote (f : List Char) : Bool :=
  f.any (fun c => c = ',' || c = '"' || c = '\n' || c = '\r')

/-- Double every quote character inside a quoted field. -/
def escQuote : List Char → List Char
  | [] => []
  | c :: cs => if c = '"' then '"' :: '"' :: escQuote cs else c :: escQuote cs

/-- Serialize one field with minimal quoting. -/
def writeField (f : List Char) : List Char :=
  if needsQuote f then '"' :: (escQuote f ++ ['"']) else f

/-- Serialize one row: fields joined by commas. -/
def writeRow : List (List Char) → List Char
  | [] => []
  | [f] => writeField f
  | f :: fs => writeField f ++ ',' :: writeRow fs

/-- Serialize a sequence of rows, each terminated by a newline. -/
def writeCsv : List (List (List Char)) → List Char
  | [] => []
  | row :: rest => writeRow row ++ '\n' :: writeCsv rest

/-- State of the CSV reader. -/
inductive CsvMode where
  | startRow
  | startField
  | unquoted
  | quoted
  | afterQuote
deriving DecidableEq

/-- The CSV reader state machine: current mode, current field, current
row, completed rows.  Returns `none` on a malformed stream (stray text
after a closing quote, or an unterminated quoted field). -/
def parseCsvAux : List Char → CsvMode → List Char → List (List Char) →
    List (List (List Char)) → Option (List (List (List Char)))
  | [], mode, cur, row, rows =>
      match mode with
      | CsvMode.startRow => some rows
      | CsvMode.quoted => none
      | _ => some (rows ++ [row ++ [cur]])
  | c :: rest, mode, cur, row, rows =>
      match mode with
      | CsvMode.startRow | CsvMode.startField =>
          if c = '"' then parseCsvAux rest CsvMode.quoted [] row rows
          else if c = ',' then parseCsvAux rest CsvMode.startField [] (row ++ [[]]) rows
          else if c = '\n' then
            parseCsvAux rest CsvMode.startRow [] [] (rows ++ [row ++ [[]]])
          else parseCsvAux rest CsvMode.unquoted [c] row rows
      | CsvMode.unquoted =>
          if c = ',' then parseCsvAux rest CsvMode.startField [] (row ++ [cur]) rows
          else if c = '\n' then
            parseCsvAux rest CsvMode.startRow [] [] (rows ++ [row ++ [cur]])
          else parseCsvAux rest CsvMode.unquoted (cur ++ [c]) row rows
      | CsvMode.quoted =>
          if c = '"' then parseCsvAux rest CsvMode.afterQuote cur row rows
          else parseCsvAux rest CsvMode.quoted (cur ++ [c]) row rows
      | CsvMode.afterQuote =>
          if c = '"' then parseCsvAux rest CsvMode.quoted (cur ++ ['"']) row rows
          else if c = ',' then parseCsvAux rest CsvMode.startField [] (row ++ [cur]) rows
          else if c = '\n' then
            parseCsvAux rest CsvMode.startRow [] [] (rows ++ [row ++ [cur]])
          else none

/-- Parse a CSV character stream into rows of fields. -/
def parseCsv (cs : List Char) : Option (List (List (List Char))) :=
  parseCsvAux cs CsvMode.startRow [] [] []

/-- Header of the filtered-table download (src/app.py lines 221-222):
`df_filtered` was read with `SELECT rowid, *`, so it carries the rowid
column. -/
def headerFiltered : List (List Char) :=
  ["rowid".data, "date".data, "category".data, "amount".data, "note".data]

/-- Header of the full-database backup download (src/app.py lines
101-105): the frame was read with `SELECT * FROM expenses`, which has no
rowid column. -/
def headerFull : List (List Char) :=
  ["date".data, "category".data, "amount".data, "note".data]

/-- The CSV fields of one row of the filtered table. -/
def fields5 (r : Record) : List (List Char) :=
  [natToChars r.id, r.date.data, r.category.data, amtToCsv r.amount,
   (noteStr r).data]

/-- The CSV fields of one row of the full-database backup. -/
def fields4 (r : Record) : List (List Char) :=
  [r.date.data, r.category.data, amtToCsv r.amount, (noteStr r).data]

/-- The "Download filtered CSV" payload (src/app.py lines 221-222):
`df_filtered.to_csv(index=False)`. -/
def exportFilteredCsv (rs : List Record) : List Char :=
  writeCsv (headerFiltered :: rs.map fields5)

/-- The "Download DB (CSV)" payload (src/app.py lines 101-105):
`pd.read_sql("SELECT * FROM expenses").to_csv(index=False)`. -/
def exportFullCsv (rs : List Record) : List Char :=
  writeCsv (headerFull :: rs.map fields4)

/-- The (date, category, amount, note) content of a record, the note
read back as the string the CSV cell holds. -/
def recTuple (r : Record) : String × String × ℚ × String :=
  (r.date, r.category, r.amount, noteStr r)

/-- Re-import one parsed row of the filtered CSV (rowid, date, category,
amount, note) as its (date, category, amount, note) tuple. -/
def rowTuple5 (row : List (List Char)) : Option (String × String × ℚ × String) :=
  match row with
  | [_, d, c, a, n] =>
      (parseAmount a).map (fun q => (String.mk d, String.mk c, q, String.mk n))
  | _ => none

/-- Re-import one parsed row of the full-database CSV (date, category,
amount, note) as its (date, category, amount, note) tuple. -/
def rowTuple4 (row : List (List Char)) : Option (String × String × ℚ × String) :=
  match row with
  | [d, c, a, n] =>
      (parseAmount a).map (fun q => (String.mk d, String.mk c, q, String.mk n))
  | _ => none

/-! ## System steps (for the positive-amount invariant)

Every handler of src/app.py that writes to the `expenses` table, as a
transition relation on the store, starting from the empty table created
by the `CREATE TABLE IF NOT EXISTS` at process start. -/

/-- One store-mutating user action of src/app.py. -/
inductive Step : Store → Store → Prop where
  | form (st : Store) (d c : String) (a : ℚ) (n : String) :
      Step st (formSubmit st d c a n).1
  | sample (st : Store) (today : String) : Step st (addSample today st)
  | delOne (st : Store) (rid : Nat) : Step st (deleteById rid st).1
  | delSel (st : Store) (sel : List Nat) : Step st (deleteSelectedHandler sel st).1
  | delAll (st : Store) : Step st (deleteAllExpenses st)

/-- Stores reachable from the freshly created empty table through the
handlers of src/app.py. -/
inductive Reachable : Store → Prop where
  | init : Reachable []
  | step {st st' : Store} : Reachable st → Step st st' → Reachable st'

/-! ## Concrete fixtures used to instantiate the theorems -/

/-- A one-row store. -/
def demoStore : Store := [⟨1, "2024-02-01", "Bills", 20, some ""⟩]

/-- A March record. -/
def demoMarch : Record := ⟨1, "2024-03-05", "Food", 199, some "lunch"⟩

/-- An April record. -/
def demoApril : Record := ⟨2, "2024-04-01", "Transport", 50, some ""⟩

/-- A store with records in two months. -/
def demoMonthStore : Store := [demoMarch, demoApril]

/-- A store exercising the search filter: a mixed-case note and a NULL
note. -/
def searchDemoStore : Store :=
  [⟨1, "2024-01-01", "Food", 5, some "Lunch FOOd"⟩,
   ⟨2, "2024-01-02", "Transport", 7, none⟩]

/-- A record whose note "abc" is matched by the search text "a.c" under
the regex semantics the code actually uses, although "a.c" is not a
substring of any of its fields. -/
def dotRecord : Record := ⟨1, "2024-01-01", "Food", 5, some "abc"⟩

/-- A record whose note contains a comma, exercising CSV quoting. -/
def csvDemo : Record := ⟨1, "2024-03-05", "Food", 199, some "lunch, etc"⟩

end ExpenseTracker

namespace ExpenseTracker

/-! ## Helper lemmas -/

/-- Every member of a list of naturals is bounded by its `foldr max 0`. -/
theorem le_foldr_max (l : List Nat) (a : Nat) (h : a ∈ l) :
    a ≤ l.foldr max 0 := by
  induction l with
  | nil => cases h
  | cons x xs ih =>
      rcases List.mem_cons.mp h with rfl | hx
      · exact le_max_left _ _
      · exact le_trans (ih hx) (le_max_right _ _)

/-- A mapped sum splits along a Boolean predicate. -/
theorem sum_map_filter_split {α : Type} (l : List α) (p : α → Bool) (f : α → ℚ) :
    ((l.filter p).map f).sum + ((l.filter (fun x => !p x)).map f).sum
      = (l.map f).sum := by
  induction l with
  | nil => simp
  | cons x xs ih =>
      cases hp : p x <;> simp [hp] <;> linarith [ih]

/-- Summing the per-category totals over a duplicate-free list of
categories covering every record gives the total amount. -/
theorem sum_catTotal_eq (cs : List String) (rs : List Record)
    (hnd : cs.Nodup) (hcov : ∀ r ∈ rs, r.category ∈ cs) :
    (cs.map (fun c => catTotal c rs)).sum = (rs.map (fun r => r.amount)).sum := by
  induction cs generalizing rs with
  | nil =>
      have hrs : rs = [] := by
        cases rs with
        | nil => rfl
        | cons r rest => exact absurd (hcov r (by simp)) (by simp)
      subst hrs; simp
  | cons c cs ih =>
      have hc : c ∉ cs := (List.nodup_cons.mp hnd).1
      have hnd' : cs.Nodup := (List.nodup_cons.mp hnd).2
      have hcov₂ : ∀ r ∈ rs.filter (fun r => !(decide (r.category = c))),
          r.category ∈ cs := by
        intro r hr
        have hmem := (List.mem_filter.mp hr).1
        have hne : ¬ (r.category = c) := by
          have h2 := (List.mem_filter.mp hr).2
          simpa using h2
        rcases List.mem_cons.mp (hcov r hmem) with h | h
        · exact absurd h hne
        · exact h
      have hmap : (cs.map (fun c' => catTotal c' rs)).sum
          = (cs.map (fun c' => catTotal c'
              (rs.filter (fun r => !(decide (r.category = c)))))).sum := by
        congr 1
        apply List.map_congr_left
        intro c' hc'
        have hne' : c' ≠ c := fun e => hc (e ▸ hc')
        have hfe : (rs.filter (fun r => !(decide (r.category = c)))).filter
              (fun r => decide (r.category = c'))
            = rs.filter (fun r => decide (r.category = c')) := by
          rw [List.filter_filter]
          apply List.filter_congr
          intro r _
          by_cases h : r.category = c' <;> simp [h, hne']
        unfold catTotal
        rw [hfe]
      calc ((c :: cs).map (fun c' => catTotal c' rs)).sum
          = catTotal c rs + (cs.map (fun c' => catTotal c' rs)).sum := by simp
        _ = catTotal c rs
              + ((rs.filter (fun r => !(decide (r.category = c)))).map
                  (fun r => r.amount)).sum := by
              rw [hmap, ih _ hnd' hcov₂]
        _ = (rs.map (fun r => r.amount)).sum := by
              have := sum_map_filter_split rs (fun r => decide (r.category = c))
                (fun r => r.amount)
              unfold catTotal
              linarith [this]

/-- Every handler step preserves positivity of all stored amounts. -/
theorem step_preserves_positive (st st' : Store) (hs : Step st st')
    (hinv : ∀ r ∈ st, 0 < r.amount) : ∀ r ∈ st', 0 < r.amount := by
  cases hs with
  | form d c a n =>
      intro r hr
      unfold formSubmit at hr
      by_cases ha : a ≤ 0
      · rw [if_pos ha] at hr
        exact hinv r hr
      · rw [if_neg ha] at hr
        rcases List.mem_append.mp hr with h | h
        · exact hinv r h
        · have he : r = newExpense d c a n (nextRowid st) := by simpa using h
          subst he
          exact lt_of_not_le ha
  | sample today =>
      intro r hr
      unfold addSample at hr
      rcases List.mem_append.mp hr with h | h
      · exact hinv r h
      · have he : r = sampleExpense today (nextRowid st) := by simpa using h
        subst he
        norm_num [sampleExpense]
  | delOne rid =>
      intro r hr
      exact hinv r (List.mem_filter.mp hr).1
  | delSel sel =>
      intro r hr
      unfold deleteSelectedHandler at hr
      by_cases hsel : sel = []
      · rw [if_pos hsel] at hr
        exact hinv r hr
      · rw [if_neg hsel] at hr
        exact hinv r (List.mem_filter.mp hr).1
  | delAll =>
      intro r hr
      cases hr

/-- All records of a reachable store have positive amounts. -/
theorem reachable_all_positive (st : Store) (hst : Reachable st) :
    ∀ r ∈ st, 0 < r.amount := by
  induction hst with
  | init => intro r hr; cases hr
  | step hprev hstep ih => exact step_preserves_positive _ _ hstep ih

/-! ## Claim theorems -/

/-- Claim C1: a form submission with `amount <= 0` leaves the table
unchanged and signals the validation error; nothing reaches storage. -/
theorem c1_reject_nonpositive (st : Store) (d c : String) (a : ℚ) (n : String)
    (h : a ≤ 0) :
    formSubmit st d c a n = (st, SubmitOutcome.validationError) := by
  simp [formSubmit, h]

/-- Witness for C1 at amount 0 on a concrete store. -/
theorem c1_reject_nonpositive_witness :
    formSubmit demoStore "2024-03-05" "Food" 0 "x"
      = (demoStore, SubmitOutcome.validationError) :=
  c1_reject_nonpositive demoStore "2024-03-05" "Food" 0 "x" (le_refl 0)

/-- Claim C2: a form submission with a positive amount appends exactly
one record carrying the supplied fields and the freshly assigned rowid,
`queryAll` afterwards returns one more record, the new rowid differs from
every existing id, and the existing records are untouched (the new table
is the old table plus one appended row). -/
theorem c2_add_appends (st : Store) (d c : String) (a : ℚ) (n : String)
    (h : 0 < a) :
    (formSubmit st d c a n).1 = st ++ [newExpense d c a n (nextRowid st)]
    ∧ (formSubmit st d c a n).2 = SubmitOutcome.ok
    ∧ (queryAll (formSubmit st d c a n).1).length = (queryAll st).length + 1
    ∧ (st.map (fun r => r.id)).all (fun i => decide (i ≠ nextRowid st)) = true := by
  have hna : ¬ a ≤ 0 := not_le.mpr h
  refine ⟨?_, ?_, ?_, ?_⟩
  · rw [formSubmit, if_neg hna]
  · rw [formSubmit, if_neg hna]
  · rw [queryAll, queryAll, formSubmit, if_neg hna]
    simp
  · rw [List.all_eq_true]
    intro i hi
    have hle : i ≤ (st.map (fun r => r.id)).foldr max 0 := le_foldr_max _ i hi
    have : i < nextRowid st := Nat.lt_succ_of_le hle
    simp [Nat.ne_of_lt this]

/-- Witness for C2 on a concrete store and input. -/
theorem c2_add_appends_witness :
    (formSubmit demoStore "2024-03-05" "Food" 199 "lunch").1
        = demoStore ++ [newExpense "2024-03-05" "Food" 199 "lunch" (nextRowid demoStore)]
    ∧ (formSubmit demoStore "2024-03-05" "Food" 199 "lunch").2 = SubmitOutcome.ok
    ∧ (queryAll (formSubmit demoStore "2024-03-05" "Food" 199 "lunch").1).length
        = (queryAll demoStore).length + 1
    ∧ (demoStore.map (fun r => r.id)).all
        (fun i => decide (i ≠ nextRowid demoStore)) = true :=
  c2_add_appends demoStore "2024-03-05" "Food" 199 "lunch" (by norm_num)

/-- Claim C3: grouping by category is conservative: the per-category
totals sum to the total amount over all records, and the empty record
set yields the empty mapping. -/
theorem c3_aggregate_conservation (rs : List Record) :
    ((aggregateByCategory rs).map Prod.snd).sum = (rs.map (fun r => r.amount)).sum
    ∧ aggregateByCategory [] = ([] : List (String × ℚ)) := by
  constructor
  · unfold aggregateByCategory
    rw [List.map_map]
    exact sum_catTotal_eq _ _ (List.nodup_dedup _)
      (fun r hr => List.mem_dedup.mpr (List.mem_map_of_mem _ hr))
  · rfl

/-- Claim C6: the multi-id delete removes exactly the stored records
whose id lies in the given set (the kept rows plus the rows with a
selected id are a permutation of the store, so ids not present are
ignored and nothing else is touched), a second identical call removes
nothing, and the call only depends on the selected ids that exist. -/
theorem c6_deleteByIds (ids : List Nat) (st : Store) :
    (deleteByIds ids st ++ st.filter (fun r => decide (r.id ∈ ids))).Perm st
    ∧ deleteByIds ids (deleteByIds ids st) = deleteByIds ids st
    ∧ deleteByIds ids st
        = deleteByIds (ids.filter (fun i => decide (i ∈ st.map (fun r => r.id)))) st := by
  have hfun : (fun r : Record => decide (r.id ∉ ids))
      = fun r : Record => !(decide (r.id ∈ ids)) := by
    funext r
    simp [decide_not]
  refine ⟨?_, ?_, ?_⟩
  · rw [deleteByIds, hfun]
    exact List.perm_append_comm.trans (List.filter_append_perm _ st)
  · simp only [deleteByIds]
    rw [List.filter_filter]
    congr 1
    funext r
    cases h : decide (r.id ∉ ids) <;> simp [h]
  · rw [deleteByIds, deleteByIds]
    apply List.filter_congr
    intro r hr
    have hid : r.id ∈ st.map (fun r => r.id) := List.mem_map_of_mem _ hr
    simp only [decide_eq_decide]
    constructor
    · intro hni hmem
      exact hni (List.mem_filter.mp hmem).1
    · intro hni hmem
      exact hni (List.mem_filter.mpr ⟨hmem, by simpa using hid⟩)

/-- Claim C7: deleting a rowid that is not in the table removes nothing:
the statement affects 0 rows and the table is unchanged (and the
operation signals no error, being a total function). -/
theorem c7_delete_absent (rid : Nat) (st : Store)
    (h : rid ∉ st.map (fun r => r.id)) :
    deleteById rid st = (st, 0) := by
  have h1 : st.filter (fun r => decide (r.id ≠ rid)) = st := by
    apply List.filter_eq_self.mpr
    intro r hr
    have : r.id ≠ rid := fun e => h (e ▸ List.mem_map_of_mem _ hr)
    simpa using this
  have h2 : st.filter (fun r => decide (r.id = rid)) = [] := by
    apply List.filter_eq_nil_iff.mpr
    intro r hr
    have : r.id ≠ rid := fun e => h (e ▸ List.mem_map_of_mem _ hr)
    simpa using this
  rw [deleteById, h1, h2]
  rfl

/-- Witness for C7: deleting absent rowid 99 from a concrete store. -/
theorem c7_delete_absent_witness : deleteById 99 demoStore = (demoStore, 0) :=
  c7_delete_absent 99 demoStore (by decide)

/-- Claim C8: for a 7-character year-month selection, the month filter
keeps exactly the records whose date's first 7 characters equal it. -/
theorem c8_month_filter (sel : String) (rs : List Record) (h : sel.length = 7) :
    monthFilter sel rs
      = rs.filter (fun r => decide (r.date.data.take 7 = sel.data)) := by
  unfold monthFilter
  apply List.filter_congr
  intro r _
  have hlen : sel.data.length = 7 := h
  by_cases hp : sel.data <+: r.date.data
  · have hb : sel.data.isPrefixOf r.date.data = true :=
      List.isPrefixOf_iff_prefix.mpr hp
    have htake : r.date.data.take 7 = sel.data := by
      have h2 := List.prefix_iff_eq_take.mp hp
      rw [hlen] at h2
      exact h2.symm
    simp [hb, htake]
  · have hb : sel.data.isPrefixOf r.date.data = false := by
      rw [Bool.eq_false_iff]
      intro htrue
      exact hp (List.isPrefixOf_iff_prefix.mp htrue)
    have htake : ¬ (r.date.data.take 7 = sel.data) := by
      intro he
      exact hp (by rw [List.prefix_iff_eq_take, hlen]; exact he.symm)
    simp [hb, htake]

/-- Witness for C8 with month "2024-03" over a two-month store. -/
theorem c8_month_filter_witness :
    monthFilter "2024-03" demoMonthStore
      = demoMonthStore.filter (fun r => decide (r.date.data.take 7 = "2024-03".data)) :=
  c8_month_filter "2024-03" demoMonthStore (by decide)

/-- Claim C9: every record of any store reachable through the handlers
of the program has a strictly positive amount; the bound is enforced at
the form boundary, the sample insert only adds a positive amount, and
no handler mutates a stored record. -/
theorem c9_positive_invariant (st : Store) (r : Record) (hst : Reachable st)
    (hr : r ∈ st) : 0 < r.amount :=
  reachable_all_positive st hst r hr

/-- Witness for C9: the sample record of a store reached by one sample
insert has a positive amount. -/
theorem c9_positive_invariant_witness :
    0 < (sampleExpense "2024-01-01" (nextRowid [])).amount :=
  c9_positive_invariant (addSample "2024-01-01" [])
    (sampleExpense "2024-01-01" (nextRowid []))
    (Reachable.step Reachable.init (Step.sample [] "2024-01-01"))
    (by simp [addSample])

/-- Claim C10: the "Delete selected" handler with an empty selection
issues no SQL statement and leaves the table unchanged. -/
theorem c10_empty_selection (st : Store) :
    deleteSelectedHandler [] st = (st, ([] : List SqlStmt)) := by
  simp [deleteSelectedHandler]

/-! ## Search filter: regex vs. plain substring -/

/-- An anchored match of an all-literal pattern is a prefix test. -/
theorem matchPrefix_lit (q s : List Char) :
    matchPrefix (q.map Tok.lit) s = q.isPrefixOf s := by
  induction q generalizing s with
  | nil => cases s <;> rfl
  | cons c q ih =>
      cases s with
      | nil => rfl
      | cons d t => simp [matchPrefix, tokMatches, List.isPrefixOf, ih]

/-- A search for an all-literal pattern is a plain substring test. -/
theorem reSearch_lit (q s : List Char) :
    reSearch (q.map Tok.lit) s = isSubstr q s := by
  induction s with
  | nil => cases q <;> rfl
  | cons c t ih =>
      show (matchPrefix (q.map Tok.lit) (c :: t) || reSearch (q.map Tok.lit) t)
          = (q.isPrefixOf (c :: t) || isSubstr q t)
      rw [matchPrefix_lit, ih]

/-- A search text free of regex metacharacters compiles to literals. -/
theorem compile_nometa (q : List Char) (h : ∀ c ∈ q, isRegexMeta c = false) :
    compilePattern q = some (q.map Tok.lit) := by
  unfold compilePattern
  rw [if_pos (List.all_eq_true.mpr (fun c hc => by simp [h c hc]))]
  congr 1
  apply List.map_congr_left
  intro c hc
  have hne : c ≠ '.' := by
    intro e
    have hm := h c hc
    rw [e] at hm
    exact absurd hm (by decide)
  simp [hne]

/-- Lower-casing an all-literal pattern lower-cases its characters. -/
theorem lowerTok_lit_map (l : List Char) :
    (l.map Tok.lit).map lowerTok = (l.map Char.toLower).map Tok.lit := by
  rw [List.map_map, List.map_map]
  rfl

/-- The composed form of `reSearch_lit` produced by map fusion. -/
theorem reSearch_lit_comp (f : Char → Char) (q s : List Char) :
    reSearch (q.map (Tok.lit ∘ f)) s = isSubstr (q.map f) s := by
  rw [← List.map_map]
  exact reSearch_lit _ _

/-- A non-empty string has a non-empty character list. -/
theorem string_ne_empty_data {q : String} (h : q ≠ "") : q.data ≠ [] := by
  intro he
  exact h (String.ext (by rw [he]))

/-- Claim C4 (amended): for a non-empty search text using no regex
metacharacter at all, the search filter keeps exactly the records where
the text occurs case-insensitively as a plain substring of the note or
of the category, an absent note matching nothing by itself but leaving
the category test intact. -/
theorem c4_search_substring (q : String) (rs : List Record)
    (h1 : q ≠ "") (h2 : ∀ c ∈ q.data, isRegexMeta c = false) :
    searchFilterStr q rs = some (rs.filter (specSearchPred q)) := by
  unfold searchFilterStr
  rw [compile_nometa q.data h2, Option.map_some']
  congr 1
  unfold searchFilter
  apply List.filter_congr
  intro r _
  unfold searchPred specSearchPred strContainsCIRe isSubstrCI
  rw [lowerTok_lit_map]
  cases hn : r.note with
  | some n => simp [noteStr, hn, reSearch_lit, reSearch_lit_comp]
  | none =>
      have hqd : q.data ≠ [] := string_ne_empty_data h1
      have hql : q.data.map Char.toLower ≠ [] := by
        simpa using hqd
      have hfalse : isSubstr (q.data.map Char.toLower) [] = false := by
        show (q.data.map Char.toLower).isEmpty = false
        cases hc : q.data.map Char.toLower with
        | nil => exact absurd hc hql
        | cons a b => rfl
      simp [noteStr, hn, reSearch_lit, reSearch_lit_comp, hfalse]

/-- Witness for the amended C4: search text "foo" over a store with a
mixed-case matching note and a NULL note. -/
theorem c4_search_substring_witness :
    searchFilterStr "foo" searchDemoStore
      = some (searchDemoStore.filter (specSearchPred "foo")) :=
  c4_search_substring "foo" searchDemoStore (by decide) (by decide)

/-- Counterexample to C4 as stated: the search text "a.c" keeps the
record whose note is "abc" (pandas `str.contains` reads the text as a
regular expression, `.` matching any character), although "a.c" occurs
as a plain substring of neither its note nor its category. -/
theorem c4_counterexample :
    searchFilterStr "a.c" [dotRecord] = some [dotRecord]
    ∧ specSearchPred "a.c" dotRecord = false := by
  decide

/-! ## Decimal numerals: printing and re-parsing -/

/-- Unfolding `natDigitsRev` at a non-zero argument. -/
theorem natDigitsRev_succ (n : Nat) (h : n ≠ 0) :
    natDigitsRev n = Nat.digitChar (n % 10) :: natDigitsRev (n / 10) := by
  rw [natDigitsRev]
  simp [h]

/-- `natDigitsRev` at zero. -/
theorem natDigitsRev_zero : natDigitsRev 0 = [] := by
  rw [natDigitsRev]
  simp

/-- The digit character of a digit is a digit character. -/
theorem digitChar_isDigit (d : Nat) (h : d < 10) :
    (Nat.digitChar d).isDigit = true := by
  interval_cases d <;> decide

/-- `digitVal` inverts `Nat.digitChar` on digits. -/
theorem digitVal_digitChar (d : Nat) (h : d < 10) :
    digitVal (Nat.digitChar d) = d := by
  interval_cases d <;> decide

/-- Every character produced by `natDigitsRev` is a digit. -/
theorem natDigitsRev_digits (n : Nat) :
    ∀ c ∈ natDigitsRev n, c.isDigit = true := by
  induction n using Nat.strong_induction_on with
  | _ n ih =>
      by_cases h0 : n = 0
      · subst h0
        rw [natDigitsRev_zero]
        intro c hc
        cases hc
      · rw [natDigitsRev_succ n h0]
        intro c hc
        rcases List.mem_cons.mp hc with rfl | hc'
        · exact digitChar_isDigit _ (Nat.mod_lt n (by norm_num))
        · exact ih (n / 10) (Nat.div_lt_self (Nat.pos_of_ne_zero h0) (by norm_num)) c hc'

/-- Every character produced by `natToChars` is a digit. -/
theorem natToChars_digits (n : Nat) :
    ∀ c ∈ natToChars n, c.isDigit = true := by
  unfold natToChars
  by_cases h0 : n = 0
  · subst h0
    intro c hc
    simp at hc
    subst hc
    decide
  · rw [if_neg h0]
    intro c hc
    exact natDigitsRev_digits n c (List.mem_reverse.mp hc)

/-- `natToChars` never returns the empty list. -/
theorem natToChars_ne_nil (n : Nat) : natToChars n ≠ [] := by
  unfold natToChars
  by_cases h0 : n = 0
  · simp [h0]
  · rw [if_neg h0]
    intro he
    have : natDigitsRev n = [] := by
      have := congrArg List.reverse he
      simpa using this
    rw [natDigitsRev_succ n h0] at this
    cases this

/-- `natFromChars` peels the last digit. -/
theorem natFromChars_append (l : List Char) (c : Char) :
    natFromChars (l ++ [c]) = 10 * natFromChars l + digitVal c := by
  unfold natFromChars
  rw [List.foldl_append]
  rfl

/-- Reading back the digits of `n` gives `n`. -/
theorem natFromChars_natDigitsRev (n : Nat) :
    natFromChars ((natDigitsRev n).reverse) = n := by
  induction n using Nat.strong_induction_on with
  | _ n ih =>
      by_cases h0 : n = 0
      · subst h0
        rw [natDigitsRev_zero]
        rfl
      · rw [natDigitsRev_succ n h0]
        rw [List.reverse_cons, natFromChars_append]
        rw [ih (n / 10) (Nat.div_lt_self (Nat.pos_of_ne_zero h0) (by norm_num))]
        rw [digitVal_digitChar _ (Nat.mod_lt n (by norm_num))]
        omega

/-- Reading back the numeral of `n` gives `n`. -/
theorem natFromChars_natToChars (n : Nat) :
    natFromChars (natToChars n) = n := by
  unfold natToChars
  by_cases h0 : n = 0
  · subst h0
    rfl
  · rw [if_neg h0]
    exact natFromChars_natDigitsRev n

/-- `takeWhile`/`dropWhile` split a list whose first block satisfies the
predicate and whose next element does not. -/
theorem takeWhile_dropWhile_split (p : Char → Bool) (w : List Char)
    (hw : ∀ c ∈ w, p c = true) (c0 : Char) (hc : p c0 = false) (t : List Char) :
    (w ++ c0 :: t).takeWhile p = w ∧ (w ++ c0 :: t).dropWhile p = c0 :: t := by
  induction w with
  | nil => simp [List.takeWhile_cons, List.dropWhile_cons, hc]
  | cons a w ih =>
      have ha : p a = true := hw a (by simp)
      have ih' := ih (fun c hcm => hw c (by simp [hcm]))
      simp [List.takeWhile_cons, List.dropWhile_cons, ha, ih'.1, ih'.2]

/-- `natFromChars` on a single character. -/
theorem natFromChars_one (c : Char) : natFromChars [c] = digitVal c := by
  unfold natFromChars
  simp

/-- `natFromChars` on two characters. -/
theorem natFromChars_two (c d : Char) :
    natFromChars [c, d] = 10 * digitVal c + digitVal d := by
  unfold natFromChars
  simp

/-- `parseUnsigned` on a digit block, a dot, and a digit block. -/
theorem parseUnsigned_split (w : List Char) (hw : ∀ c ∈ w, c.isDigit = true)
    (hwne : w ≠ []) (fr : List Char) (hfr1 : fr ≠ [])
    (hfr2 : ∀ c ∈ fr, c.isDigit = true) :
    parseUnsigned (w ++ '.' :: fr)
      = some ((natFromChars w : ℚ)
          + (natFromChars fr : ℚ) / (10 : ℚ) ^ fr.length) := by
  have hdot : ('.' : Char).isDigit = false := by decide
  obtain ⟨ht, hd⟩ :=
    takeWhile_dropWhile_split (fun c => c.isDigit) w hw '.' hdot fr
  unfold parseUnsigned
  rw [ht, hd, if_neg hwne]
  cases fr with
  | nil => exact absurd rfl hfr1
  | cons a t =>
      have hall : (a :: t).all (fun c => c.isDigit) = true :=
        List.all_eq_true.mpr hfr2
      simp [hall]

/-- The shape of `fmtCents`: whole-part numeral, dot, fraction tail. -/
theorem fmtCents_shape (n : Nat) :
    ∃ tl, fmtCents n = natToChars (n / 100) ++ '.' :: tl := by
  unfold fmtCents
  split_ifs <;> exact ⟨_, rfl⟩

/-- Re-parsing the printed cents gives the cents over 100. -/
theorem parseUnsigned_fmtCents (n : Nat) :
    parseUnsigned (fmtCents n) = some ((n : ℚ) / 100) := by
  have hw := natToChars_digits (n / 100)
  have hwne := natToChars_ne_nil (n / 100)
  have hmod : n % 100 < 100 := Nat.mod_lt n (by norm_num)
  have hcast : (n : ℚ) = 100 * ((n / 100 : Nat) : ℚ) + ((n % 100 : Nat) : ℚ) := by
    exact_mod_cast (Nat.div_add_mod n 100).symm
  unfold fmtCents
  by_cases h1 : n % 100 = 0
  · rw [if_pos h1]
    rw [parseUnsigned_split _ hw hwne ['0'] (by simp) (by decide)]
    rw [natFromChars_natToChars]
    have hv : natFromChars ['0'] = 0 := by decide
    rw [hv]
    have hq : ((n % 100 : Nat) : ℚ) = 0 := by
      rw [h1]
      norm_num
    rw [hcast, hq]
    norm_num
  · rw [if_neg h1]
    by_cases h2 : (n % 100) % 10 = 0
    · rw [if_pos h2]
      have hdig : ∀ c ∈ [Nat.digitChar ((n % 100) / 10)], c.isDigit = true := by
        intro c hc
        simp at hc
        subst hc
        exact digitChar_isDigit _ (by omega)
      rw [parseUnsigned_split _ hw hwne _ (by simp) hdig]
      rw [natFromChars_natToChars, natFromChars_one,
        digitVal_digitChar _ (by omega)]
      have h3 : ((n % 100 : Nat) : ℚ) = (((n % 100) / 10 : Nat) : ℚ) * 10 := by
        exact_mod_cast (Nat.div_mul_cancel (Nat.dvd_of_mod_eq_zero h2)).symm
      rw [hcast, h3]
      field_simp
      ring
    · rw [if_neg h2]
      by_cases h3 : n % 100 < 10
      · rw [if_pos h3]
        have hdig : ∀ c ∈ ['0', Nat.digitChar (n % 100)], c.isDigit = true := by
          intro c hc
          rcases List.mem_cons.mp hc with rfl | hc'
          · decide
          · simp at hc'
            subst hc'
            exact digitChar_isDigit _ (by omega)
        rw [parseUnsigned_split _ hw hwne _ (by simp) hdig]
        rw [natFromChars_natToChars, natFromChars_two,
          digitVal_digitChar _ (by omega)]
        have hz : digitVal '0' = 0 := by decide
        rw [hz, hcast]
        field_simp
        ring
      · rw [if_neg h3]
        have hdig : ∀ c ∈ [Nat.digitChar ((n % 100) / 10),
            Nat.digitChar ((n % 100) % 10)], c.isDigit = true := by
          intro c hc
          rcases List.mem_cons.mp hc with rfl | hc'
          · exact digitChar_isDigit _ (by omega)
          · simp at hc'
            subst hc'
            exact digitChar_isDigit _ (by omega)
        rw [parseUnsigned_split _ hw hwne _ (by simp) hdig]
        rw [natFromChars_natToChars, natFromChars_two,
          digitVal_digitChar _ (by omega), digitVal_digitChar _ (by omega)]
        have hfr : 10 * (n % 100 / 10) + n % 100 % 10 = n % 100 :=
          Nat.div_add_mod (n % 100) 10
        rw [hfr, hcast]
        field_simp
        ring

/-- Re-parsing the printed cents through the signed parser. -/
theorem parseAmount_fmtCents (n : Nat) :
    parseAmount (fmtCents n) = some ((n : ℚ) / 100) := by
  obtain ⟨tl, hsh⟩ := fmtCents_shape n
  cases hw : natToChars (n / 100) with
  | nil => exact absurd hw (natToChars_ne_nil _)
  | cons a t =>
      have ha : a.isDigit = true := by
        apply natToChars_digits (n / 100)
        rw [hw]
        exact List.mem_cons_self _ _
      have hane : ¬ (a = '-') := by
        intro e
        rw [e] at ha
        exact absurd ha (by decide)
      have hx : fmtCents n = a :: (t ++ '.' :: tl) := by
        rw [hsh, hw]
        rfl
      have hstep : parseAmount (a :: (t ++ '.' :: tl))
          = parseUnsigned (a :: (t ++ '.' :: tl)) := by
        simp [parseAmount, hane]
      rw [hx, hstep, ← hx]
      exact parseUnsigned_fmtCents n

/-- Re-parsing the printed amount gives back the amount, for
cent-precision amounts. -/
theorem parseAmount_amtToCsv (a : ℚ) (h : a.den ∣ 100) :
    parseAmount (amtToCsv a) = some a := by
  have hdq : ((a.den : ℚ)) ≠ 0 := by
    exact_mod_cast a.den_nz
  have hden : ((100 / a.den : Nat) : ℚ) * (a.den : ℚ) = 100 := by
    exact_mod_cast Nat.div_mul_cancel h
  have hnum : (a.num : ℚ) = a * (a.den : ℚ) :=
    (div_eq_iff hdq).mp (Rat.num_div_den a)
  have hval : ((a.num * ((100 / a.den : Nat) : Int) : Int) : ℚ) = a * 100 := by
    push_cast
    rw [hnum]
    calc a * (a.den : ℚ) * ((100 / a.den : Nat) : ℚ)
        = a * (((100 / a.den : Nat) : ℚ) * (a.den : ℚ)) := by ring
      _ = a * 100 := by rw [hden]
  unfold amtToCsv
  by_cases hc : a.num * ((100 / a.den : Nat) : Int) < 0
  · rw [if_pos hc]
    have h1 : ((a.num * ((100 / a.den : Nat) : Int)).natAbs : Int)
        = -(a.num * ((100 / a.den : Nat) : Int)) :=
      Int.ofNat_natAbs_of_nonpos (le_of_lt hc)
    have habs : (((a.num * ((100 / a.den : Nat) : Int)).natAbs : Nat) : ℚ)
        = -(a * 100) := by
      have h2 : (((a.num * ((100 / a.den : Nat) : Int)).natAbs : Nat) : ℚ)
          = (((a.num * ((100 / a.den : Nat) : Int)).natAbs : Int) : ℚ) :=
        (Int.cast_natCast _).symm
      rw [h2, h1, Int.cast_neg, hval]
    have hstep : parseAmount ('-' :: fmtCents
          (a.num * ((100 / a.den : Nat) : Int)).natAbs)
        = (parseUnsigned (fmtCents
            (a.num * ((100 / a.den : Nat) : Int)).natAbs)).map (fun q => -q) := by
      simp [parseAmount]
    rw [hstep, parseUnsigned_fmtCents, Option.map_some']
    congr 1
    rw [habs]
    ring
  · rw [if_neg hc]
    have h1 : ((a.num * ((100 / a.den : Nat) : Int)).natAbs : Int)
        = a.num * ((100 / a.den : Nat) : Int) :=
      Int.natAbs_of_nonneg (not_lt.mp hc)
    have habs : (((a.num * ((100 / a.den : Nat) : Int)).natAbs : Nat) : ℚ)
        = a * 100 := by
      have h2 : (((a.num * ((100 / a.den : Nat) : Int)).natAbs : Nat) : ℚ)
          = (((a.num * ((100 / a.den : Nat) : Int)).natAbs : Int) : ℚ) :=
        (Int.cast_natCast _).symm
      rw [h2, h1, hval]
    rw [parseAmount_fmtCents]
    congr 1
    rw [habs]
    ring

/-! ## CSV writer/reader round trip -/

/-- Characters of an unquoted field are inert for the reader. -/
theorem not_needsQuote (f : List Char) (h : needsQuote f = false) :
    ∀ c ∈ f, ¬ c = ',' ∧ ¬ c = '"' ∧ ¬ c = '\n' := by
  intro c hc
  unfold needsQuote at h
  rw [List.any_eq_false] at h
  have hcc := h c hc
  simp at hcc
  refine ⟨?_, ?_, ?_⟩ <;> tauto

/-- At the start of a field, the reader behaves the same whether the
field starts a row or follows a comma. -/
theorem start_step (c : Char) (cs : List Char) (m : CsvMode)
    (hm : m = CsvMode.startRow ∨ m = CsvMode.startField)
    (cur : List Char) (row : List (List Char))
    (rows : List (List (List Char))) :
    parseCsvAux (c :: cs) m cur row rows
      = parseCsvAux (c :: cs) CsvMode.startField cur row rows := by
  rcases hm with rfl | rfl
  · rfl
  · rfl

/-- The reader in unquoted mode accumulates inert characters. -/
theorem consume_unquoted (f : List Char)
    (hf : ∀ c ∈ f, ¬ c = ',' ∧ ¬ c = '\n') (rest cur : List Char)
    (row : List (List Char)) (rows : List (List (List Char))) :
    parseCsvAux (f ++ rest) CsvMode.unquoted cur row rows
      = parseCsvAux rest CsvMode.unquoted (cur ++ f) row rows := by
  induction f generalizing cur with
  | nil => simp
  | cons c t ih =>
      have hc := hf c (by simp)
      show parseCsvAux (c :: (t ++ rest)) CsvMode.unquoted cur row rows = _
      simp only [parseCsvAux]
      rw [if_neg hc.1, if_neg hc.2]
      rw [ih (fun x hx => hf x (by simp [hx])) (cur ++ [c])]
      rw [List.append_assoc]
      rfl

/-- The reader in quoted mode accumulates an escaped field up to the
closing quote. -/
theorem consume_quoted (f : List Char) (rest cur : List Char)
    (row : List (List Char)) (rows : List (List (List Char))) :
    parseCsvAux (escQuote f ++ '"' :: rest) CsvMode.quoted cur row rows
      = parseCsvAux rest CsvMode.afterQuote (cur ++ f) row rows := by
  induction f generalizing cur with
  | nil =>
      show parseCsvAux ('"' :: rest) CsvMode.quoted cur row rows = _
      simp [parseCsvAux]
  | cons c t ih =>
      by_cases hc : c = '"'
      · subst hc
        have he : escQuote ('"' :: t) = '"' :: '"' :: escQuote t := by
          simp [escQuote]
        rw [he]
        show parseCsvAux ('"' :: ('"' :: (escQuote t ++ '"' :: rest)))
            CsvMode.quoted cur row rows = _
        simp only [parseCsvAux]
        simp
        rw [ih (cur ++ ['"'])]
        simp [List.append_assoc]
      · have he : escQuote (c :: t) = c :: escQuote t := by
          simp [escQuote, hc]
        rw [he]
        show parseCsvAux (c :: (escQuote t ++ '"' :: rest))
            CsvMode.quoted cur row rows = _
        simp only [parseCsvAux]
        rw [if_neg hc]
        rw [ih (cur ++ [c])]
        rw [List.append_assoc]
        rfl

/-- The reader consumes one serialized field up to a comma. -/
theorem consume_field_comma (f : List Char) (m : CsvMode)
    (hm : m = CsvMode.startRow ∨ m = CsvMode.startField) (rest : List Char)
    (row : List (List Char)) (rows : List (List (List Char))) :
    parseCsvAux (writeField f ++ ',' :: rest) m [] row rows
      = parseCsvAux rest CsvMode.startField [] (row ++ [f]) rows := by
  by_cases hq : needsQuote f = true
  · have hwf : writeField f = '"' :: (escQuote f ++ ['"']) := by
      simp [writeField, hq]
    have hsh : ('"' :: (escQuote f ++ ['"'])) ++ ',' :: rest
        = '"' :: (escQuote f ++ '"' :: (',' :: rest)) := by
      simp
    rw [hwf, hsh, start_step _ _ m hm]
    simp only [parseCsvAux]
    simp
    rw [consume_quoted f (',' :: rest) [] row rows]
    simp [parseCsvAux]
  · have hq' : needsQuote f = false := by
      simpa using hq
    have hwf : writeField f = f := by
      simp [writeField, hq']
    have hsafe := not_needsQuote f hq'
    rw [hwf]
    cases f with
    | nil =>
        show parseCsvAux (',' :: rest) m [] row rows = _
        rw [start_step _ _ m hm]
        simp [parseCsvAux]
    | cons a t =>
        have ha := hsafe a (by simp)
        show parseCsvAux (a :: (t ++ ',' :: rest)) m [] row rows = _
        rw [start_step _ _ m hm]
        simp only [parseCsvAux]
        rw [if_neg ha.2.1, if_neg ha.1, if_neg ha.2.2]
        rw [consume_unquoted t
          (fun x hx => ⟨(hsafe x (by simp [hx])).1, (hsafe x (by simp [hx])).2.2⟩)
          (',' :: rest) [a] row rows]
        simp [parseCsvAux]

/-- The reader consumes one serialized field up to a newline, closing
the row. -/
theorem consume_field_newline (f : List Char) (m : CsvMode)
    (hm : m = CsvMode.startRow ∨ m = CsvMode.startField) (rest : List Char)
    (row : List (List Char)) (rows : List (List (List Char))) :
    parseCsvAux (writeField f ++ '\n' :: rest) m [] row rows
      = parseCsvAux rest CsvMode.startRow [] [] (rows ++ [row ++ [f]]) := by
  by_cases hq : needsQuote f = true
  · have hwf : writeField f = '"' :: (escQuote f ++ ['"']) := by
      simp [writeField, hq]
    have hsh : ('"' :: (escQuote f ++ ['"'])) ++ '\n' :: rest
        = '"' :: (escQuote f ++ '"' :: ('\n' :: rest)) := by
      simp
    rw [hwf, hsh, start_step _ _ m hm]
    simp only [parseCsvAux]
    simp
    rw [consume_quoted f ('\n' :: rest) [] row rows]
    simp [parseCsvAux]
  · have hq' : needsQuote f = false := by
      simpa using hq
    have hwf : writeField f = f := by
      simp [writeField, hq']
    have hsafe := not_needsQuote f hq'
    rw [hwf]
    cases f with
    | nil =>
        show parseCsvAux ('\n' :: rest) m [] row rows = _
        rw [start_step _ _ m hm]
        simp [parseCsvAux]
    | cons a t =>
        have ha := hsafe a (by simp)
        show parseCsvAux (a :: (t ++ '\n' :: rest)) m [] row rows = _
        rw [start_step _ _ m hm]
        simp only [parseCsvAux]
        rw [if_neg ha.2.1, if_neg ha.1, if_neg ha.2.2]
        rw [consume_unquoted t
          (fun x hx => ⟨(hsafe x (by simp [hx])).1, (hsafe x (by simp [hx])).2.2⟩)
          ('\n' :: rest) [a] row rows]
        simp [parseCsvAux]

/-- The reader consumes one serialized row and its newline. -/
theorem consume_row (fs : List (List Char)) : fs ≠ [] → ∀ (m : CsvMode),
    m = CsvMode.startRow ∨ m = CsvMode.startField →
    ∀ (rest : List Char) (row : List (List Char))
      (rows : List (List (List Char))),
    parseCsvAux (writeRow fs ++ '\n' :: rest) m [] row rows
      = parseCsvAux rest CsvMode.startRow [] [] (rows ++ [row ++ fs]) := by
  induction fs with
  | nil => intro hne; exact absurd rfl hne
  | cons f t ih =>
      intro _ m hm rest row rows
      cases t with
      | nil =>
          show parseCsvAux (writeField f ++ '\n' :: rest) m [] row rows = _
          exact consume_field_newline f m hm rest row rows
      | cons f2 t2 =>
          show parseCsvAux ((writeField f ++ ',' :: writeRow (f2 :: t2))
              ++ '\n' :: rest) m [] row rows = _
          rw [List.append_assoc, List.cons_append]
          rw [consume_field_comma f m hm _ row rows]
          rw [ih (by simp) CsvMode.startField (Or.inr rfl) rest (row ++ [f]) rows]
          simp [List.append_assoc]

/-- The reader consumes any sequence of serialized non-empty rows. -/
theorem consume_rows (rows' : List (List (List Char)))
    (h : ∀ row ∈ rows', row ≠ []) (rows : List (List (List Char))) :
    parseCsvAux (writeCsv rows') CsvMode.startRow [] [] rows
      = some (rows ++ rows') := by
  induction rows' generalizing rows with
  | nil => simp [writeCsv, parseCsvAux]
  | cons row t ih =>
      show parseCsvAux (writeRow row ++ '\n' :: writeCsv t)
          CsvMode.startRow [] [] rows = _
      rw [consume_row row (h row (by simp)) CsvMode.startRow (Or.inl rfl)
        (writeCsv t) [] rows]
      rw [ih (fun r hr => h r (by simp [hr])) (rows ++ [[] ++ row])]
      simp

/-- Re-parsing a serialized CSV stream of non-empty rows yields exactly
those rows. -/
theorem parseCsv_writeCsv (rows' : List (List (List Char)))
    (h : ∀ row ∈ rows', row ≠ []) :
    parseCsv (writeCsv rows') = some rows' := by
  unfold parseCsv
  rw [consume_rows rows' h []]
  simp

/-- `filterMap` of a function that always succeeds is a `map`. -/
theorem filterMap_all_some {α β : Type} (l : List α) (f : α → Option β)
    (g : α → β) (h : ∀ x ∈ l, f x = some (g x)) : l.filterMap f = l.map g := by
  induction l with
  | nil => rfl
  | cons x t ih =>
      simp [List.filterMap_cons, h x (by simp),
        ih (fun y hy => h y (by simp [hy]))]

/-- Rebuilding a string from its characters is the identity. -/
theorem string_mk_data (s : String) : String.mk s.data = s := rfl

/-- Claim C5 (amended): the filtered-table export carries the header
`rowid,date,category,amount,note` while the full-database backup export
has no rowid column (header `date,category,amount,note`); both write one
row per record in the given order, and re-parsing either output yields
the records' (date, category, amount, note) tuples in order — in
particular the same multiset — for cent-precision amounts. -/
theorem c5_export_roundtrip (rs : List Record)
    (hA : ∀ r ∈ rs, r.amount.den ∣ 100) :
    parseCsv (exportFilteredCsv rs) = some (headerFiltered :: rs.map fields5)
    ∧ parseCsv (exportFullCsv rs) = some (headerFull :: rs.map fields4)
    ∧ writeRow headerFiltered = "rowid,date,category,amount,note".data
    ∧ writeRow headerFull = "date,category,amount,note".data
    ∧ (rs.map fields5).map rowTuple5 = rs.map (fun r => some (recTuple r))
    ∧ (rs.map fields4).map rowTuple4 = rs.map (fun r => some (recTuple r))
    ∧ ((rs.map fields5).filterMap rowTuple5).Perm (rs.map recTuple) := by
  have hrow5 : ∀ r ∈ rs, rowTuple5 (fields5 r) = some (recTuple r) := by
    intro r hr
    have hp := parseAmount_amtToCsv r.amount (hA r hr)
    simp [fields5, rowTuple5, recTuple, hp, string_mk_data]
  have hrow4 : ∀ r ∈ rs, rowTuple4 (fields4 r) = some (recTuple r) := by
    intro r hr
    have hp := parseAmount_amtToCsv r.amount (hA r hr)
    simp [fields4, rowTuple4, recTuple, hp, string_mk_data]
  have hne5 : ∀ row ∈ headerFiltered :: rs.map fields5, row ≠ [] := by
    intro row hrow
    rcases List.mem_cons.mp hrow with rfl | hmem
    · simp [headerFiltered]
    · obtain ⟨r, _, rfl⟩ := List.mem_map.mp hmem
      simp [fields5]
  have hne4 : ∀ row ∈ headerFull :: rs.map fields4, row ≠ [] := by
    intro row hrow
    rcases List.mem_cons.mp hrow with rfl | hmem
    · simp [headerFull]
    · obtain ⟨r, _, rfl⟩ := List.mem_map.mp hmem
      simp [fields4]
  refine ⟨?_, ?_, ?_, ?_, ?_, ?_, ?_⟩
  · exact parseCsv_writeCsv _ hne5
  · exact parseCsv_writeCsv _ hne4
  · decide
  · decide
  · rw [List.map_map]
    exact List.map_congr_left hrow5
  · rw [List.map_map]
    exact List.map_congr_left hrow4
  · rw [List.filterMap_map,
      filterMap_all_some rs (rowTuple5 ∘ fields5) recTuple hrow5]

/-- Witness for the amended C5 on a one-record store whose note even
contains a comma (exercising minimal quoting). -/
theorem c5_export_roundtrip_witness :
    parseCsv (exportFilteredCsv [csvDemo])
        = some (headerFiltered :: [csvDemo].map fields5)
    ∧ parseCsv (exportFullCsv [csvDemo])
        = some (headerFull :: [csvDemo].map fields4)
    ∧ writeRow headerFiltered = "rowid,date,category,amount,note".data
    ∧ writeRow headerFull = "date,category,amount,note".data
    ∧ ([csvDemo].map fields5).map rowTuple5
        = [csvDemo].map (fun r => some (recTuple r))
    ∧ ([csvDemo].map fields4).map rowTuple4
        = [csvDemo].map (fun r => some (recTuple r))
    ∧ (([csvDemo].map fields5).filterMap rowTuple5).Perm
        ([csvDemo].map recTuple) :=
  c5_export_roundtrip [csvDemo] (by decide)

/-- Counterexample to C5 as stated: the full-database backup export
writes the header `date,category,amount,note` — not the claimed
`rowid,date,category,amount,note` (the backing frame is read with
`SELECT *`, which drops the rowid). -/
theorem c5_counterexample :
    exportFullCsv [] = "date,category,amount,note\n".data
    ∧ decide (headerFull = headerFiltered) = false := by
  decide

end ExpenseTracker
